import Mathlib

/-!
Verification of the UUID v1 generator repository (uuid.go).

The Go source is shallowly embedded: machine integers become `Nat` with
explicit reductions modulo 2^8 / 2^16 / 2^32 / 2^64 where the Go code
truncates, the 16-byte `UUID` array becomes a 16-field structure, the
package-level mutable storage (clockSequence, lastTime, hardwareAddr)
and the per-instance generator structs become explicit state records
threaded through each operation, the wall clock becomes an injected
timestamp argument, channels become lists (send = append at the back,
receive = take the head), and code that can abort (the secure random
source) returns `Except`.  The mutex only serializes calls; a serialized
execution is modelled as a fold over the list of observed clock readings.
-/

set_option maxRecDepth 8192

namespace GoUUID

/-- Difference in 100-nanosecond intervals between the UUID epoch
(October 15, 1582) and the Unix epoch (January 1, 1970); constant
`epochStart` of the source. -/
def epochStart : Nat := 122192928000000000

/-- UUID representation: the 16-byte array `type UUID [16]byte` of the
source, one field per byte.  Bytes are `Nat`s; well-formed values keep
every byte below 256 (`UUID.Wf`). -/
structure UUID where
  b0 : Nat
  b1 : Nat
  b2 : Nat
  b3 : Nat
  b4 : Nat
  b5 : Nat
  b6 : Nat
  b7 : Nat
  b8 : Nat
  b9 : Nat
  b10 : Nat
  b11 : Nat
  b12 : Nat
  b13 : Nat
  b14 : Nat
  b15 : Nat
deriving DecidableEq

instance : Inhabited UUID := ⟨⟨0, 0, 0, 0, 0, 0, 0, 0, 0, 0, 0, 0, 0, 0, 0, 0⟩⟩

/-- Wf u holds when every byte of `u` is an actual byte value. -/
def UUID.Wf (u : UUID) : Prop :=
  u.b0 < 256 ∧ u.b1 < 256 ∧ u.b2 < 256 ∧ u.b3 < 256 ∧
  u.b4 < 256 ∧ u.b5 < 256 ∧ u.b6 < 256 ∧ u.b7 < 256 ∧
  u.b8 < 256 ∧ u.b9 < 256 ∧ u.b10 < 256 ∧ u.b11 < 256 ∧
  u.b12 < 256 ∧ u.b13 < 256 ∧ u.b14 < 256 ∧ u.b15 < 256

instance (u : UUID) : Decidable u.Wf := by
  unfold UUID.Wf
  infer_instance

/-- SetVersion sets the version bits: Go `u[6] = (u[6] & 0x0f) | (v << 4)`
(the shift of the byte `v` wraps modulo 256). -/
def UUID.SetVersion (u : UUID) (v : Nat) : UUID :=
  { u with b6 := (u.b6 &&& 15) ||| (v * 16 % 256) }

/-- SetVariant sets the RFC 4122 variant bits: Go
`u[8] = (u[8] & 0xbf) | 0x80`. -/
def UUID.SetVariant (u : UUID) : UUID :=
  { u with b8 := (u.b8 &&& 191) ||| 128 }

/-- encodeV1 is the byte layout shared verbatim by `NewV1`,
`SatoriGenerator.NewV1`, `ChanneledGenerator.produceUUIDs` and
`produceLockFreeUUIDs` in the source:
`binary.BigEndian.PutUint32(u[0:], uint32(timeNow))`,
`binary.BigEndian.PutUint16(u[4:], uint16(timeNow>>32))`,
`binary.BigEndian.PutUint16(u[6:], uint16(timeNow>>48))`,
`binary.BigEndian.PutUint16(u[8:], clockSeq)`,
`copy(u[10:], hardwareAddr)`, then `u.SetVersion(1)` and
`u.SetVariant()`.  The casts `uint32`/`uint16` are the explicit
`% 2 ^ 32` / `% 2 ^ 16` reductions and each stored byte is reduced
`% 256` exactly as the big-endian byte extraction does. -/
def encodeV1 (t s : Nat) (n : List Nat) : UUID :=
  (UUID.mk
    (t % 2 ^ 32 / 2 ^ 24 % 256) (t % 2 ^ 32 / 2 ^ 16 % 256)
    (t % 2 ^ 32 / 2 ^ 8 % 256) (t % 2 ^ 32 % 256)
    (t / 2 ^ 32 % 2 ^ 16 / 2 ^ 8 % 256) (t / 2 ^ 32 % 2 ^ 16 % 256)
    (t / 2 ^ 48 % 2 ^ 16 / 2 ^ 8 % 256) (t / 2 ^ 48 % 2 ^ 16 % 256)
    (s / 2 ^ 8 % 256) (s % 256)
    (n.getD 0 0) (n.getD 1 0) (n.getD 2 0)
    (n.getD 3 0) (n.getD 4 0) (n.getD 5 0)).SetVersion 1 |>.SetVariant

/-- versionNibble reads the top four bits of byte 6. -/
def versionNibble (u : UUID) : Nat := u.b6 / 16

/-- variantBits reads the top two bits of byte 8. -/
def variantBits (u : UUID) : Nat := u.b8 / 64

/-- timestampField reads the 60-bit timestamp stored in a v1 UUID
(low nibble of byte 6, then bytes 7, 4, 5, 0, 1, 2, 3, per the
time-hi / time-mid / time-low layout). -/
def timestampField (u : UUID) : Nat :=
  u.b6 % 16 * 2 ^ 56 + u.b7 * 2 ^ 48 + u.b4 * 2 ^ 40 + u.b5 * 2 ^ 32 +
  u.b0 * 2 ^ 24 + u.b1 * 2 ^ 16 + u.b2 * 2 ^ 8 + u.b3

/-- clockSeqField reads the 14-bit clock sequence stored in a v1 UUID
(byte 8 without the two variant bits, then byte 9). -/
def clockSeqField (u : UUID) : Nat := u.b8 % 64 * 256 + u.b9

/-- Storage models the package-level mutable state
`var (clockSequence uint16; lastTime uint64; hardwareAddr [6]byte)`
(the mutex is not part of the data; serialization is modelled by
threading the state through one call at a time). -/
structure Storage where
  clockSequence : Nat
  lastTime : Nat
  hardwareAddr : List Nat
deriving DecidableEq

/-- getStorage is the body of the package-level `getStorage` (and of
`getStorageLockFree`, whose body is identical): read the clock, bump
the clock sequence (a `uint16`, so wrapping modulo 65536) when the
clock did not advance, record the timestamp, and return the triple.
The clock reading `unixTimeFunc()` is the injected `timeNow`. -/
def getStorage (st : Storage) (timeNow : Nat) : Storage × (Nat × Nat × List Nat) :=
  let cs := if timeNow ≤ st.lastTime then (st.clockSequence + 1) % 65536
            else st.clockSequence
  ({ st with clockSequence := cs, lastTime := timeNow },
   (timeNow, cs, st.hardwareAddr))

/-- getStorageLockFree has the same body as `getStorage`; only the
locking (not modelled) differs. -/
def getStorageLockFree (st : Storage) (timeNow : Nat) : Storage × (Nat × Nat × List Nat) :=
  getStorage st timeNow

/-- NewV1 is the package-level generator: `getStorage` then the shared
byte layout. -/
def NewV1 (st : Storage) (timeNow : Nat) : Storage × UUID :=
  let r := getStorage st timeNow
  (r.1, encodeV1 r.2.1 r.2.2.1 r.2.2.2)

/-- SatoriGenerator models the per-instance struct with fields
`clockSequence`, `lastTime`, `hardwareAddr` (the embedded mutex is not
data). -/
structure SatoriGenerator where
  clockSequence : Nat
  lastTime : Nat
  hardwareAddr : List Nat
deriving DecidableEq

/-- getStorage on a `SatoriGenerator` is translated exactly as the
source has it: the comparison is `timeNow <= lastTime` against the
PACKAGE-LEVEL `lastTime` (not `g.lastTime`), the increment hits
`g.clockSequence`, the write hits `g.lastTime`, and the returned
clock sequence and hardware address are the PACKAGE-LEVEL
`clockSequence` and `hardwareAddr` (not `g`'s fields).  `glob` is the
package-level `Storage`; it is read but never written here. -/
def SatoriGenerator.getStorage (g : SatoriGenerator) (glob : Storage)
    (timeNow : Nat) : SatoriGenerator × (Nat × Nat × List Nat) :=
  let g1 := if timeNow ≤ glob.lastTime then
              { g with clockSequence := (g.clockSequence + 1) % 65536 }
            else g
  ({ g1 with lastTime := timeNow },
   (timeNow, glob.clockSequence, glob.hardwareAddr))

/-- NewV1 on a `SatoriGenerator`: `g.getStorage` then the shared byte
layout. -/
def SatoriGenerator.NewV1 (g : SatoriGenerator) (glob : Storage)
    (timeNow : Nat) : SatoriGenerator × UUID :=
  let r := g.getStorage glob timeNow
  (r.1, encodeV1 r.2.1 r.2.2.1 r.2.2.2)

/-- ChanneledGenerator models the struct with its own channel `ch`
(created with the configured capacity in `NewChanneledGenerator`) and
its own `clockSequence`, `lastTime`, `hardwareAddr` fields.  Channels
are modelled as lists: send appends at the back, receive takes the
head. -/
structure ChanneledGenerator where
  ch : List UUID
  clockSequence : Nat
  lastTime : Nat
  hardwareAddr : List Nat
deriving DecidableEq

/-- getStorage on a `ChanneledGenerator`, translated exactly as the
source has it: like `SatoriGenerator.getStorage` the comparison reads
the package-level `lastTime` and the returned clock sequence and
hardware address are the package-level ones; only the increment and
the timestamp write hit `g`'s fields. -/
def ChanneledGenerator.getStorage (g : ChanneledGenerator) (glob : Storage)
    (timeNow : Nat) : ChanneledGenerator × (Nat × Nat × List Nat) :=
  let g1 := if timeNow ≤ glob.lastTime then
              { g with clockSequence := (g.clockSequence + 1) % 65536 }
            else g
  ({ g1 with lastTime := timeNow },
   (timeNow, glob.clockSequence, glob.hardwareAddr))

/-- produceUUIDsStep is one iteration of the worker loop
`ChanneledGenerator.produceUUIDs`: `g.getStorage`, the shared byte
layout, then `ch <- u` — and the source sends on the PACKAGE-LEVEL
channel `ch`, not on `g.ch`, so the step takes and returns the
package-level channel `globalCh` while `g.ch` is never touched. -/
def ChanneledGenerator.produceUUIDsStep (g : ChanneledGenerator) (glob : Storage)
    (globalCh : List UUID) (timeNow : Nat) : ChanneledGenerator × List UUID :=
  let r := g.getStorage glob timeNow
  (r.1, globalCh ++ [encodeV1 r.2.1 r.2.2.1 r.2.2.2])

/-- NewV1 on a `ChanneledGenerator` is `return <-ch`: it receives from
the PACKAGE-LEVEL channel (the source never reads `g.ch`), returning
the received value and the rest of that channel. -/
def ChanneledGenerator.NewV1 (g : ChanneledGenerator) (globalCh : List UUID) :
    UUID × List UUID :=
  (globalCh.headD default, globalCh.tail)

/-- produceLockFreeUUIDsStep is one iteration of `produceLockFreeUUIDs`:
`getStorageLockFree` on the package-level storage, the shared byte
layout, then a send on the package-level channel. -/
def produceLockFreeUUIDsStep (st : Storage) (globalCh : List UUID)
    (timeNow : Nat) : Storage × List UUID :=
  let r := getStorageLockFree st timeNow
  (r.1, globalCh ++ [encodeV1 r.2.1 r.2.2.1 r.2.2.2])

/-- NewV1LockFree is `return <-ch` on the package-level channel. -/
def NewV1LockFree (globalCh : List UUID) : UUID × List UUID :=
  (globalCh.headD default, globalCh.tail)

/-- runNewV1 is a serialized sequence of package-level `NewV1` calls:
the mutex admits exactly the executions equivalent to threading the
storage through the calls in some order, with `ts` the clock readings
the calls observe. -/
def runNewV1 (st : Storage) : List Nat → List UUID
  | [] => []
  | t :: ts =>
    let r := NewV1 st t
    r.2 :: runNewV1 r.1 ts

/-- runGetStorage is the same serialized run at the storage level,
collecting the (timestamp, clock sequence) pair each call observes. -/
def runGetStorage (st : Storage) : List Nat → List (Nat × Nat)
  | [] => []
  | t :: ts =>
    let r := getStorage st t
    (r.2.1, r.2.2.1) :: runGetStorage r.1 ts

/-- runAux is a proof-side ghost of `runGetStorage`: it records with
each observed timestamp the cumulative number of clock-sequence
increments (never wrapped), so that the real clock sequence after the
k-th call is `(cs0 + increments) % 65536`. -/
def runAux (last acc : Nat) : List Nat → List (Nat × Nat)
  | [] => []
  | t :: ts =>
    let acc2 := if t ≤ last then acc + 1 else acc
    (t, acc2) :: runAux t acc2 ts

/-- dash is the separator byte of the canonical string form. -/
def dash : Char := '-'

/-- hextable is the digit table of `encoding/hex`, the constant
`hextable = "0123456789abcdef"` of the Go standard library. -/
def hextable : List Char := "0123456789abcdef".toList

/-- hexDigit looks a nibble up in the table (in the source the index is
always below 16; out-of-range indices default, arbitrarily, to '0'). -/
def hexDigit (x : Nat) : Char := hextable.getD x '0'

/-- hexByte is `encoding/hex` on one byte: high nibble then low. -/
def hexByte (b : Nat) : List Char := [hexDigit (b / 16), hexDigit (b % 16)]

/-- toString is `UUID.String()`: hex of bytes 0-3, dash, 4-5, dash,
6-7, dash, 8-9, dash, 10-15, as a list of characters. -/
def UUID.toString (u : UUID) : List Char :=
  hexByte u.b0 ++ hexByte u.b1 ++ hexByte u.b2 ++ hexByte u.b3 ++ [dash] ++
  hexByte u.b4 ++ hexByte u.b5 ++ [dash] ++
  hexByte u.b6 ++ hexByte u.b7 ++ [dash] ++
  hexByte u.b8 ++ hexByte u.b9 ++ [dash] ++
  hexByte u.b10 ++ hexByte u.b11 ++ hexByte u.b12 ++
  hexByte u.b13 ++ hexByte u.b14 ++ hexByte u.b15

/-- isLowerHexDigit c holds when `c` is a lowercase hexadecimal digit. -/
def isLowerHexDigit (c : Char) : Prop :=
  ('0' ≤ c ∧ c ≤ '9') ∨ ('a' ≤ c ∧ c ≤ 'f')

instance (c : Char) : Decidable (isLowerHexDigit c) := by
  unfold isLowerHexDigit
  infer_instance

/-- uint64OfInt is Go's `uint64(x)` conversion of a signed 64-bit
value: reduction modulo 2^64 into a nonnegative representative. -/
def uint64OfInt (x : Int) : Nat := (x % (2 ^ 64 : Int)).toNat

/-- unixTimeFunc is the timestamp source
`epochStart + uint64(time.Now().UnixNano()/100)`, with the signed
nanosecond reading `v` injected.  Go division of `int64` truncates
toward zero (`Int.tdiv`), and the `uint64` addition wraps
modulo 2^64. -/
def unixTimeFunc (v : Int) : Nat :=
  (epochStart + uint64OfInt (Int.tdiv v 100)) % 2 ^ 64

/-- safeRandom models `rand.Read` plus the panic-on-error wrapper: an
erroring secure random source aborts (the error propagates), otherwise
the read bytes come back. -/
def safeRandom (r : Except String (List Nat)) : Except String (List Nat) :=
  match r with
  | Except.ok bs => Except.ok bs
  | Except.error e => Except.error e

/-- initClockSequence reads two random bytes and interprets them
big-endian (`binary.BigEndian.Uint16`); it aborts exactly when the
random source errors. -/
def initClockSequence (rand : Except String (List Nat)) : Except String Nat :=
  match safeRandom rand with
  | Except.error e => Except.error e
  | Except.ok buf => Except.ok (buf.getD 0 0 * 256 + buf.getD 1 0)

/-- initHardwareAddrRandom is the fallback path of `initHardwareAddr`:
six random bytes with the multicast bit (`|= 0x01`) forced on the
first. -/
def initHardwareAddrRandom (rand : Except String (List Nat)) : Except String (List Nat) :=
  match safeRandom rand with
  | Except.error e => Except.error e
  | Except.ok buf => Except.ok (buf.set 0 (buf.getD 0 0 ||| 1))

/-- initHardwareAddr enumerates the interfaces (`none` models a failed
`net.Interfaces()` call), copies the first hardware address of length
at least 6, and otherwise falls back to random bytes. -/
def initHardwareAddr (interfaces : Option (List (List Nat)))
    (rand : Except String (List Nat)) : Except String (List Nat) :=
  match interfaces with
  | some l =>
    match l.find? (fun a => decide (6 ≤ a.length)) with
    | some a => Except.ok (a.take 6)
    | none => initHardwareAddrRandom rand
  | none => initHardwareAddrRandom rand

/-- initStorage chains the two initializers as the source does
(clock sequence first, then hardware address). -/
def initStorage (rand1 rand2 : Except String (List Nat))
    (interfaces : Option (List (List Nat))) : Except String (Nat × List Nat) :=
  match initClockSequence rand1 with
  | Except.error e => Except.error e
  | Except.ok seq =>
    match initHardwareAddr interfaces rand2 with
    | Except.error e => Except.error e
    | Except.ok addr => Except.ok (seq, addr)

/-- exceptOk r holds when the computation did not abort. -/
def exceptOk {ε α : Type} (r : Except ε α) : Prop := ∃ a, r = Except.ok a

end GoUUID

namespace GoUUID

/-- Byte-level evaluation of the version overwrite on byte 6. -/
theorem byteAnd15Or16 : ∀ x, x < 256 → ((x &&& 15) ||| (1 * 16 % 256)) = 16 + x % 16 := by
  decide

/-- Byte-level evaluation of the variant overwrite on byte 8. -/
theorem byteAnd191Or128 : ∀ x, x < 256 → ((x &&& 191) ||| 128) = 128 + x % 64 := by
  decide

/-- Closed form of the encoder: the version and variant overwrites
resolved into arithmetic on the affected bytes. -/
theorem encodeV1_bytes (t s : Nat) (n : List Nat) :
    encodeV1 t s n = UUID.mk
      (t % 2 ^ 32 / 2 ^ 24 % 256) (t % 2 ^ 32 / 2 ^ 16 % 256)
      (t % 2 ^ 32 / 2 ^ 8 % 256) (t % 2 ^ 32 % 256)
      (t / 2 ^ 32 % 2 ^ 16 / 2 ^ 8 % 256) (t / 2 ^ 32 % 2 ^ 16 % 256)
      (16 + t / 2 ^ 48 % 2 ^ 16 / 2 ^ 8 % 256 % 16) (t / 2 ^ 48 % 2 ^ 16 % 256)
      (128 + s / 2 ^ 8 % 256 % 64) (s % 256)
      (n.getD 0 0) (n.getD 1 0) (n.getD 2 0)
      (n.getD 3 0) (n.getD 4 0) (n.getD 5 0) := by
  unfold encodeV1 UUID.SetVersion UUID.SetVariant
  congr 1
  · exact byteAnd15Or16 _ (Nat.mod_lt _ (by norm_num))
  · exact byteAnd191Or128 _ (Nat.mod_lt _ (by norm_num))

/-- Every encoded UUID carries version nibble 1 and variant bits 10. -/
theorem encodeV1_version_variant (t s : Nat) (n : List Nat) :
    versionNibble (encodeV1 t s n) = 1 ∧ variantBits (encodeV1 t s n) = 2 := by
  rw [encodeV1_bytes]
  unfold versionNibble variantBits
  dsimp only
  constructor <;> omega

/-- Reading the 60-bit timestamp field back out of an encoded UUID. -/
theorem timestampField_encodeV1 (t s : Nat) (n : List Nat) (ht : t < 2 ^ 60) :
    timestampField (encodeV1 t s n) = t := by
  rw [encodeV1_bytes]
  unfold timestampField
  dsimp only
  omega

/-- Reading the 14-bit clock sequence field back out of an encoded
UUID. -/
theorem clockSeqField_encodeV1 (t s : Nat) (n : List Nat) :
    clockSeqField (encodeV1 t s n) = s % 16384 := by
  rw [encodeV1_bytes]
  unfold clockSeqField
  dsimp only
  omega

/-- Injectivity of the encoder up to what the layout preserves: with
timestamps in the 60-bit field range, equal UUIDs force equal
timestamps and congruent clock sequences modulo 2^14. -/
theorem encodeV1_inj (t1 t2 s1 s2 : Nat) (n : List Nat)
    (h1 : t1 < 2 ^ 60) (h2 : t2 < 2 ^ 60)
    (he : encodeV1 t1 s1 n = encodeV1 t2 s2 n) :
    t1 = t2 ∧ s1 % 16384 = s2 % 16384 := by
  rw [encodeV1_bytes, encodeV1_bytes, UUID.mk.injEq] at he
  obtain ⟨e0, e1, e2, e3, e4, e5, e6, e7, e8, e9, -, -, -, -, -, -⟩ := he
  constructor <;> omega

/-- C1: for every 64-bit timestamp t, 16-bit clock sequence s and
6-byte node id n, the NewV1 encoding yields bytes 0-3 = low 32 bits of
t big-endian, bytes 4-5 = bits 32-47, bytes 6-7 = bits 48-63 with the
top nibble of byte 6 overwritten to 0001, bytes 8-9 = s with the top
two bits of byte 8 overwritten to 10, and bytes 10-15 = n. -/
theorem c1_encoding_layout (t s : Nat) (n : List Nat) (hs : s < 65536)
    (hn : n.length = 6) :
    encodeV1 t s n = UUID.mk
      (t / 2 ^ 24 % 256) (t / 2 ^ 16 % 256) (t / 2 ^ 8 % 256) (t % 256)
      (t / 2 ^ 40 % 256) (t / 2 ^ 32 % 256)
      (16 + t / 2 ^ 56 % 16) (t / 2 ^ 48 % 256)
      (128 + s / 256 % 64) (s % 256)
      (n.getD 0 0) (n.getD 1 0) (n.getD 2 0)
      (n.getD 3 0) (n.getD 4 0) (n.getD 5 0) := by
  rw [encodeV1_bytes, UUID.mk.injEq]
  refine ⟨by omega, by omega, by omega, by omega, by omega, by omega, by omega,
    by omega, by omega, by omega, rfl, rfl, rfl, rfl, rfl, rfl⟩

/-- Witness for C1 at t = 5, s = 7, n = [1,2,3,4,5,6]. -/
theorem c1_encoding_layout_witness :
    encodeV1 5 7 [1, 2, 3, 4, 5, 6] =
      UUID.mk 0 0 0 5 0 0 16 0 128 7 1 2 3 4 5 6 :=
  c1_encoding_layout 5 7 [1, 2, 3, 4, 5, 6] (by decide) (by decide)

/-- C10: the encoding discards bits 60-63 of the timestamp — timestamps
congruent modulo 2^60 encode to byte-identical UUIDs. -/
theorem c10_version_discards_top_nibble (t1 t2 s : Nat) (n : List Nat)
    (h : t1 % 2 ^ 60 = t2 % 2 ^ 60) :
    encodeV1 t1 s n = encodeV1 t2 s n := by
  rw [encodeV1_bytes, encodeV1_bytes, UUID.mk.injEq]
  refine ⟨by omega, by omega, by omega, by omega, by omega, by omega, by omega,
    by omega, rfl, rfl, rfl, rfl, rfl, rfl, rfl, rfl⟩

/-- Witness for C10 at t1 = 3, t2 = 3 + 2^60. -/
theorem c10_version_discards_top_nibble_witness :
    encodeV1 3 9 [1, 2, 3, 4, 5, 6] = encodeV1 (3 + 2 ^ 60) 9 [1, 2, 3, 4, 5, 6] :=
  c10_version_discards_top_nibble 3 (3 + 2 ^ 60) 9 [1, 2, 3, 4, 5, 6] (by decide)

/-- C5: every UUID a caller gets from any of the four operations has
version nibble 0001 and variant bits 10: the two synchronous NewV1
variants return such a value directly, each worker step pushes only
such values into the channel, and the two channel pops return a pushed
value (head of a channel all of whose elements are produced values). -/
theorem c5_version_variant_invariant :
    (∀ st t, versionNibble (NewV1 st t).2 = 1 ∧ variantBits (NewV1 st t).2 = 2) ∧
    (∀ g glob t, versionNibble (SatoriGenerator.NewV1 g glob t).2 = 1 ∧
      variantBits (SatoriGenerator.NewV1 g glob t).2 = 2) ∧
    (∀ g glob c t, ∀ u ∈ (ChanneledGenerator.produceUUIDsStep g glob c t).2,
      u ∈ c ∨ (versionNibble u = 1 ∧ variantBits u = 2)) ∧
    (∀ st c t, ∀ u ∈ (produceLockFreeUUIDsStep st c t).2,
      u ∈ c ∨ (versionNibble u = 1 ∧ variantBits u = 2)) ∧
    (∀ g c, c ≠ [] → (∀ u ∈ c, versionNibble u = 1 ∧ variantBits u = 2) →
      versionNibble (ChanneledGenerator.NewV1 g c).1 = 1 ∧
      variantBits (ChanneledGenerator.NewV1 g c).1 = 2) ∧
    (∀ c, c ≠ [] → (∀ u ∈ c, versionNibble u = 1 ∧ variantBits u = 2) →
      versionNibble (NewV1LockFree c).1 = 1 ∧ variantBits (NewV1LockFree c).1 = 2) := by
  refine ⟨fun st t => ?_, fun g glob t => ?_, fun g glob c t u hu => ?_,
    fun st c t u hu => ?_, fun g c hne hall => ?_, fun c hne hall => ?_⟩
  · exact encodeV1_version_variant _ _ _
  · exact encodeV1_version_variant _ _ _
  · rcases List.mem_append.mp hu with h | h
    · exact Or.inl h
    · rcases List.mem_singleton.mp h with rfl
      exact Or.inr (encodeV1_version_variant _ _ _)
  · rcases List.mem_append.mp hu with h | h
    · exact Or.inl h
    · rcases List.mem_singleton.mp h with rfl
      exact Or.inr (encodeV1_version_variant _ _ _)
  · cases c with
    | nil => exact absurd rfl hne
    | cons u rest => exact hall u (List.mem_cons_self u rest)
  · cases c with
    | nil => exact absurd rfl hne
    | cons u rest => exact hall u (List.mem_cons_self u rest)

/-- Witness for C5: a pop from a channel holding one produced value. -/
theorem c5_version_variant_invariant_witness :
    versionNibble (ChanneledGenerator.NewV1 ⟨[], 0, 0, []⟩
      [encodeV1 0 0 [0, 0, 0, 0, 0, 0]]).1 = 1 ∧
    variantBits (ChanneledGenerator.NewV1 ⟨[], 0, 0, []⟩
      [encodeV1 0 0 [0, 0, 0, 0, 0, 0]]).1 = 2 :=
  c5_version_variant_invariant.2.2.2.2.1 ⟨[], 0, 0, []⟩
    [encodeV1 0 0 [0, 0, 0, 0, 0, 0]] (by decide) (by decide)

end GoUUID

namespace GoUUID

/-- Table entries at nibble positions are lowercase hex digits. -/
theorem hexDigit_isLower : ∀ x, x < 16 → isLowerHexDigit (hexDigit x) := by
  decide

/-- No table entry (and not the default either) is the dash. -/
theorem hexDigit_ne_dash (x : Nat) : hexDigit x ≠ dash := by
  unfold hexDigit
  by_cases h : x < 16
  · interval_cases x <;> decide
  · rw [List.getD_eq_default]
    · decide
    · show hextable.length ≤ x
      have h16 : hextable.length = 16 := rfl
      omega

/-- Filtering the dash out of a hex-encoded byte changes nothing. -/
theorem filter_hexByte (b : Nat) :
    (hexByte b).filter (fun c => decide (c ≠ dash)) = hexByte b := by
  simp [hexByte, List.filter_cons, hexDigit_ne_dash]

/-- Filtering the dash out of the separator removes it. -/
theorem filter_dash : ([dash]).filter (fun c => decide (c ≠ dash)) = [] := by
  decide

set_option maxHeartbeats 1000000 in
/-- C6: the canonical string of any 16-byte UUID is exactly 36
characters, with dashes exactly at indices 8, 13, 18, 23, lowercase
hexadecimal digits everywhere else, and — dashes removed — the hex
encoding of the 16 bytes in order (8-4-4-4-12 grouping). -/
theorem c6_string_rendering (u : UUID) (h : u.Wf) :
    u.toString.length = 36 ∧
    (∀ i (hi : i < u.toString.length),
      ((i = 8 ∨ i = 13 ∨ i = 18 ∨ i = 23) → u.toString.get ⟨i, hi⟩ = dash) ∧
      (¬(i = 8 ∨ i = 13 ∨ i = 18 ∨ i = 23) →
        isLowerHexDigit (u.toString.get ⟨i, hi⟩))) ∧
    u.toString.filter (fun c => decide (c ≠ dash)) =
      hexByte u.b0 ++ hexByte u.b1 ++ hexByte u.b2 ++ hexByte u.b3 ++
      hexByte u.b4 ++ hexByte u.b5 ++ hexByte u.b6 ++ hexByte u.b7 ++
      hexByte u.b8 ++ hexByte u.b9 ++ hexByte u.b10 ++ hexByte u.b11 ++
      hexByte u.b12 ++ hexByte u.b13 ++ hexByte u.b14 ++ hexByte u.b15 := by
  obtain ⟨b0, b1, b2, b3, b4, b5, b6, b7, b8, b9, b10, b11, b12, b13, b14, b15⟩ := u
  obtain ⟨h0, h1, h2, h3, h4, h5, h6, h7, h8, h9, h10, h11, h12, h13, h14, h15⟩ := h
  dsimp only at h0 h1 h2 h3 h4 h5 h6 h7 h8 h9 h10 h11 h12 h13 h14 h15
  have e : UUID.toString
      (UUID.mk b0 b1 b2 b3 b4 b5 b6 b7 b8 b9 b10 b11 b12 b13 b14 b15) =
      [hexDigit (b0 / 16), hexDigit (b0 % 16), hexDigit (b1 / 16), hexDigit (b1 % 16),
       hexDigit (b2 / 16), hexDigit (b2 % 16), hexDigit (b3 / 16), hexDigit (b3 % 16),
       dash,
       hexDigit (b4 / 16), hexDigit (b4 % 16), hexDigit (b5 / 16), hexDigit (b5 % 16),
       dash,
       hexDigit (b6 / 16), hexDigit (b6 % 16), hexDigit (b7 / 16), hexDigit (b7 % 16),
       dash,
       hexDigit (b8 / 16), hexDigit (b8 % 16), hexDigit (b9 / 16), hexDigit (b9 % 16),
       dash,
       hexDigit (b10 / 16), hexDigit (b10 % 16), hexDigit (b11 / 16), hexDigit (b11 % 16),
       hexDigit (b12 / 16), hexDigit (b12 % 16), hexDigit (b13 / 16), hexDigit (b13 % 16),
       hexDigit (b14 / 16), hexDigit (b14 % 16), hexDigit (b15 / 16), hexDigit (b15 % 16)] := by
    simp only [UUID.toString, hexByte, List.cons_append, List.nil_append]
  have hlen : (UUID.toString
      (UUID.mk b0 b1 b2 b3 b4 b5 b6 b7 b8 b9 b10 b11 b12 b13 b14 b15)).length = 36 := by
    rw [e]
    rfl
  refine ⟨hlen, ?_, ?_⟩
  · intro i hi
    have h36 : i < 36 := hlen ▸ hi
    have hget : (UUID.toString
        (UUID.mk b0 b1 b2 b3 b4 b5 b6 b7 b8 b9 b10 b11 b12 b13 b14 b15)).get ⟨i, hi⟩ =
        (UUID.toString
          (UUID.mk b0 b1 b2 b3 b4 b5 b6 b7 b8 b9 b10 b11 b12 b13 b14 b15)).getD i dash :=
      (List.get_eq_getElem _ ⟨i, hi⟩).trans (List.getD_eq_getElem _ dash hi).symm
    rw [hget, e]
    clear hget hi
    interval_cases i <;>
      refine ⟨fun hd => ?_, fun hn => ?_⟩ <;>
        first
          | rfl
          | exact absurd hd (by decide)
          | exact absurd (by decide) hn
          | exact hexDigit_isLower _ (by omega)
  · simp only [UUID.toString, List.append_assoc, List.filter_append,
      filter_hexByte, filter_dash, List.nil_append]

/-- Witness for C6 at a concrete encoded UUID. -/
theorem c6_string_rendering_witness :
    (UUID.toString (encodeV1 5 7 [1, 2, 3, 4, 5, 6])).length = 36 :=
  (c6_string_rendering (encodeV1 5 7 [1, 2, 3, 4, 5, 6]) (by decide)).1

end GoUUID

namespace GoUUID

/-- Unfolded form of one package-level `NewV1` call. -/
theorem NewV1_eq (st : Storage) (t : Nat) :
    NewV1 st t =
      (⟨if t ≤ st.lastTime then (st.clockSequence + 1) % 65536 else st.clockSequence,
        t, st.hardwareAddr⟩,
       encodeV1 t
         (if t ≤ st.lastTime then (st.clockSequence + 1) % 65536 else st.clockSequence)
         st.hardwareAddr) := by
  by_cases h : t ≤ st.lastTime <;> simp [NewV1, getStorage, h]

/-- C2 (amended): the storage-read step increments the clock sequence
by one wrapping modulo 65536 exactly when the new timestamp is not
past the recorded one, always records the timestamp, and returns the
timestamp with the resulting clock sequence; consequently a clock that
repeats a timestamp gives a second UUID with the same timestamp field
and a clock-sequence field one greater modulo 2^14 (the stored field
is 14 bits, the variant overwrite discards the top two bits), and a
strictly increasing clock below 2^60 gives increasing timestamp
fields with an unchanged clock sequence. -/
theorem c2_clock_regression_amended :
    (∀ st t, st.clockSequence < 65536 →
      ((getStorage st t).1.clockSequence = (st.clockSequence + 1) % 65536 ↔
        t ≤ st.lastTime) ∧
      ((getStorage st t).1.clockSequence = st.clockSequence ↔ ¬t ≤ st.lastTime) ∧
      (getStorage st t).1.lastTime = t ∧
      (getStorage st t).2 = (t, (getStorage st t).1.clockSequence, st.hardwareAddr)) ∧
    (∀ st t, t < 2 ^ 60 →
      timestampField (NewV1 (NewV1 st t).1 t).2 = timestampField (NewV1 st t).2 ∧
      clockSeqField (NewV1 (NewV1 st t).1 t).2 =
        (clockSeqField (NewV1 st t).2 + 1) % 16384) ∧
    (∀ st t1 t2, t1 < t2 → t2 < 2 ^ 60 →
      timestampField (NewV1 st t1).2 < timestampField (NewV1 (NewV1 st t1).1 t2).2 ∧
      clockSeqField (NewV1 (NewV1 st t1).1 t2).2 = clockSeqField (NewV1 st t1).2 ∧
      (NewV1 (NewV1 st t1).1 t2).1.clockSequence = (NewV1 st t1).1.clockSequence) := by
  refine ⟨fun st t h => ?_, fun st t ht => ?_, fun st t1 t2 h12 ht2 => ?_⟩
  · by_cases hle : t ≤ st.lastTime <;>
      simp [getStorage, hle] <;> omega
  · obtain ⟨cs, last, addr⟩ := st
    simp only [NewV1_eq]
    rw [if_pos (le_refl t)]
    rw [timestampField_encodeV1 _ _ _ ht, timestampField_encodeV1 _ _ _ ht,
      clockSeqField_encodeV1, clockSeqField_encodeV1]
    exact ⟨rfl, by omega⟩
  · obtain ⟨cs, last, addr⟩ := st
    have ht1 : t1 < 2 ^ 60 := lt_trans h12 ht2
    simp only [NewV1_eq]
    rw [if_neg (by omega : ¬t2 ≤ t1)]
    rw [timestampField_encodeV1 _ _ _ ht1, timestampField_encodeV1 _ _ _ ht2,
      clockSeqField_encodeV1, clockSeqField_encodeV1]
    exact ⟨h12, rfl, rfl⟩

/-- Witness for the amended C2 at a duplicate clock reading 7. -/
theorem c2_clock_regression_amended_witness :
    timestampField (NewV1 (NewV1 ⟨3, 0, [1, 2, 3, 4, 5, 6]⟩ 7).1 7).2 =
      timestampField (NewV1 ⟨3, 0, [1, 2, 3, 4, 5, 6]⟩ 7).2 ∧
    clockSeqField (NewV1 (NewV1 ⟨3, 0, [1, 2, 3, 4, 5, 6]⟩ 7).1 7).2 =
      (clockSeqField (NewV1 ⟨3, 0, [1, 2, 3, 4, 5, 6]⟩ 7).2 + 1) % 16384 :=
  c2_clock_regression_amended.2.1 ⟨3, 0, [1, 2, 3, 4, 5, 6]⟩ 7 (by decide)

/-- Counterexample to C2 as stated: starting from clock sequence 16383
with the clock stuck at 5, the repository state does gain exactly one
(mod 65536, third conjunct), but the second UUID's stored
clock-sequence field is 0, not one greater mod 65536 than the first
UUID's field 16383 — the variant overwrite keeps only 14 bits. -/
theorem c2_clock_regression_counterexample :
    timestampField (NewV1 (NewV1 ⟨16383, 0, [1, 2, 3, 4, 5, 6]⟩ 5).1 5).2 =
      timestampField (NewV1 ⟨16383, 0, [1, 2, 3, 4, 5, 6]⟩ 5).2 ∧
    clockSeqField (NewV1 (NewV1 ⟨16383, 0, [1, 2, 3, 4, 5, 6]⟩ 5).1 5).2 ≠
      (clockSeqField (NewV1 ⟨16383, 0, [1, 2, 3, 4, 5, 6]⟩ 5).2 + 1) % 65536 ∧
    (NewV1 (NewV1 ⟨16383, 0, [1, 2, 3, 4, 5, 6]⟩ 5).1 5).1.clockSequence =
      ((NewV1 ⟨16383, 0, [1, 2, 3, 4, 5, 6]⟩ 5).1.clockSequence + 1) % 65536 := by
  decide

/-- C3: evaluating `SatoriGenerator.getStorage` on an instance with
clock sequence 7, last time 0 and node id [1..6], against package
state with clock sequence 42, last time 100 and node id [9..9], at
clock reading 50: the claim requires no increment (50 > 0 = g's last
time) and the return (50, 7, [1,2,3,4,5,6]) drawn from g's fields; the
code instead increments g's sequence to 8 (because 50 <= 100, the
package-level last time) and returns the package-level 42 and
[9,9,9,9,9,9]. -/
theorem c3_per_instance_isolation_bug :
    SatoriGenerator.getStorage ⟨7, 0, [1, 2, 3, 4, 5, 6]⟩ ⟨42, 100, [9, 9, 9, 9, 9, 9]⟩ 50 =
      (⟨8, 50, [1, 2, 3, 4, 5, 6]⟩, (50, 42, [9, 9, 9, 9, 9, 9])) := by
  decide

/-- C4: one worker step of a `ChanneledGenerator` (own queue empty)
leaves the generator's own queue `ch` empty and appends its UUID to
the PACKAGE-LEVEL channel instead; and `NewV1` on a different
generator instance returns exactly that UUID from the package-level
channel — not from its own (empty) queue. -/
theorem c4_package_channel_bug :
    (ChanneledGenerator.produceUUIDsStep ⟨[], 7, 0, [1, 2, 3, 4, 5, 6]⟩
        ⟨42, 100, [9, 9, 9, 9, 9, 9]⟩ [] 50).1.ch = [] ∧
    (ChanneledGenerator.produceUUIDsStep ⟨[], 7, 0, [1, 2, 3, 4, 5, 6]⟩
        ⟨42, 100, [9, 9, 9, 9, 9, 9]⟩ [] 50).2 =
      [encodeV1 50 42 [9, 9, 9, 9, 9, 9]] ∧
    (ChanneledGenerator.NewV1 ⟨[], 7, 0, [1, 2, 3, 4, 5, 6]⟩
        (ChanneledGenerator.produceUUIDsStep ⟨[], 0, 0, [0, 0, 0, 0, 0, 0]⟩
          ⟨42, 100, [9, 9, 9, 9, 9, 9]⟩ [] 50).2).1 =
      encodeV1 50 42 [9, 9, 9, 9, 9, 9] := by
  decide

end GoUUID

namespace GoUUID

/-- Counterexample to C7 as stated: at nanosecond reading -1 (one
nanosecond before the Unix epoch) Go's truncating division gives
-1/100 = 0 and now() returns EPOCH_OFFSET, while the claim's
EPOCH_OFFSET + floor(-1/100) is EPOCH_OFFSET - 1. -/
theorem c7_now_counterexample :
    unixTimeFunc (-1) ≠
      (((epochStart : Int) + Int.fdiv (-1) 100) % (2 ^ 64 : Int)).toNat := by
  decide

/-- C7 (amended): now() returns EPOCH_OFFSET + v/100 where the 64-bit
division truncates toward zero, the sum taken modulo 2^64; for
nonnegative readings (every real post-1970 clock) this coincides with
EPOCH_OFFSET + floor(v/100) as claimed. -/
theorem c7_now_truncating_amended (v : Int) (h1 : -(2 ^ 63) ≤ v) (h2 : v < 2 ^ 63) :
    unixTimeFunc v = (((epochStart : Int) + Int.tdiv v 100) % (2 ^ 64 : Int)).toNat ∧
    (0 ≤ v → unixTimeFunc v = epochStart + (v / 100).toNat) ∧
    (v < 0 → unixTimeFunc v = ((epochStart : Int) + Int.tdiv v 100).toNat) := by
  unfold unixTimeFunc uint64OfInt epochStart
  refine ⟨?_, fun hv => ?_, fun hv => ?_⟩
  · generalize Int.tdiv v 100 = d
    omega
  · rw [Int.tdiv_eq_ediv hv (by norm_num)]
    omega
  · have hneg : Int.tdiv v 100 = -((-v) / 100) := by
      calc Int.tdiv v 100 = Int.tdiv (-(-v)) 100 := by rw [neg_neg]
        _ = -(Int.tdiv (-v) 100) := Int.neg_tdiv _ _
        _ = -((-v) / 100) := by rw [Int.tdiv_eq_ediv (by omega) (by norm_num)]
    rw [hneg]
    omega

/-- Witness for the amended C7 at v = 12345. -/
theorem c7_now_truncating_amended_witness :
    unixTimeFunc 12345 = epochStart + ((12345 : Int) / 100).toNat :=
  (c7_now_truncating_amended 12345 (by decide) (by decide)).2.1 (by decide)

/-- Every byte readable out of a list of bytes is a byte. -/
theorem getD_lt_256 (n : List Nat) (h : ∀ b ∈ n, b < 256) (i : Nat) :
    n.getD i 0 < 256 := by
  induction n generalizing i with
  | nil => simp [List.getD]
  | cons a l ih =>
    cases i with
    | zero => exact h a (List.mem_cons_self a l)
    | succ j =>
      simpa using ih (fun b hb => h b (List.mem_cons_of_mem a hb)) j

/-- Encoded UUIDs are made of bytes whenever the node id is. -/
theorem encodeV1_Wf (t s : Nat) (n : List Nat) (h : ∀ b ∈ n, b < 256) :
    (encodeV1 t s n).Wf := by
  rw [encodeV1_bytes]
  unfold UUID.Wf
  dsimp only
  refine ⟨by omega, by omega, by omega, by omega, by omega, by omega, by omega,
    by omega, by omega, by omega, getD_lt_256 n h _, getD_lt_256 n h _,
    getD_lt_256 n h _, getD_lt_256 n h _, getD_lt_256 n h _, getD_lt_256 n h _⟩

/-- C8: initialization aborts exactly when the secure random source
errors — reading the clock sequence propagates an error and succeeds
otherwise, the random node-id fallback likewise, a found hardware
interface avoids the fallback entirely, and the chained `initStorage`
aborts exactly when one of its two reads aborts; once past
construction, every generator operation unconditionally yields a
16-byte UUID (a well-formed `UUID` value, no error channel). -/
theorem c8_fatal_only_at_init :
    (∀ r, exceptOk (initClockSequence r) ↔ exceptOk r) ∧
    (∀ r, exceptOk (initHardwareAddrRandom r) ↔ exceptOk r) ∧
    (∀ l a r, l.find? (fun x => decide (6 ≤ x.length)) = some a →
      initHardwareAddr (some l) r = Except.ok (a.take 6)) ∧
    (∀ r1 r2 ifs, exceptOk (initStorage r1 r2 ifs) ↔
      (exceptOk r1 ∧ exceptOk (initHardwareAddr ifs r2))) ∧
    (∀ st t, (∀ b ∈ st.hardwareAddr, b < 256) → ((NewV1 st t).2).Wf) ∧
    (∀ g glob t, (∀ b ∈ glob.hardwareAddr, b < 256) →
      ((SatoriGenerator.NewV1 g glob t).2).Wf) ∧
    (∀ g glob c t, (∀ b ∈ glob.hardwareAddr, b < 256) →
      ∀ u ∈ (ChanneledGenerator.produceUUIDsStep g glob c t).2, u ∈ c ∨ u.Wf) ∧
    (∀ st c t, (∀ b ∈ st.hardwareAddr, b < 256) →
      ∀ u ∈ (produceLockFreeUUIDsStep st c t).2, u ∈ c ∨ u.Wf) := by
  refine ⟨fun r => ?_, fun r => ?_, fun l a r hf => ?_, fun r1 r2 ifs => ?_,
    fun st t h => ?_, fun g glob t h => ?_, fun g glob c t h u hu => ?_,
    fun st c t h u hu => ?_⟩
  · cases r <;> simp [initClockSequence, safeRandom, exceptOk]
  · cases r <;> simp [initHardwareAddrRandom, safeRandom, exceptOk]
  · simp [initHardwareAddr, hf]
  · cases r1 <;>
      simp [initStorage, initClockSequence, safeRandom, exceptOk] <;>
      rcases h2 : initHardwareAddr ifs r2 <;> simp [h2]
  · exact encodeV1_Wf _ _ _ h
  · exact encodeV1_Wf _ _ _ h
  · rcases List.mem_append.mp hu with hm | hm
    · exact Or.inl hm
    · rcases List.mem_singleton.mp hm with rfl
      exact Or.inr (encodeV1_Wf _ _ _ h)
  · rcases List.mem_append.mp hu with hm | hm
    · exact Or.inl hm
    · rcases List.mem_singleton.mp hm with rfl
      exact Or.inr (encodeV1_Wf _ _ _ h)

/-- Witness for C8: a successful and a failing construction. -/
theorem c8_fatal_only_at_init_witness :
    UUID.Wf (NewV1 ⟨0, 0, [1, 2, 3, 4, 5, 6]⟩ 5).2 :=
  c8_fatal_only_at_init.2.2.2.2.1 ⟨0, 0, [1, 2, 3, 4, 5, 6]⟩ 5 (by decide)

end GoUUID

namespace GoUUID

/-- Ghost run and real run have the same length. -/
theorem runAux_length (ts : List Nat) (last acc : Nat) :
    (runAux last acc ts).length = ts.length := by
  induction ts generalizing last acc with
  | nil => rfl
  | cons t ts ih => simp [runAux, ih]

/-- Cumulative increment counts stay between the starting count and
the starting count plus the number of calls made. -/
theorem runAux_bounds :
    ∀ (ts : List Nat) (last acc i : Nat) (h : i < (runAux last acc ts).length),
    acc ≤ ((runAux last acc ts).get ⟨i, h⟩).2 ∧
    ((runAux last acc ts).get ⟨i, h⟩).2 ≤ acc + i + 1 := by
  intro ts
  induction ts with
  | nil =>
    intro last acc i h
    simp [runAux] at h
  | cons t ts ih =>
    intro last acc i h
    cases i with
    | zero =>
      show acc ≤ (if t ≤ last then acc + 1 else acc) ∧
        (if t ≤ last then acc + 1 else acc) ≤ acc + 0 + 1
      split <;> omega
    | succ j =>
      have hj : j < (runAux t (if t ≤ last then acc + 1 else acc) ts).length := by
        rw [runAux_length]
        rw [runAux_length] at h
        simpa using h
      rw [show (runAux last acc (t :: ts)).get ⟨j + 1, h⟩ =
          (runAux t (if t ≤ last then acc + 1 else acc) ts).get ⟨j, hj⟩ from rfl]
      obtain ⟨hlo, hhi⟩ := ih t (if t ≤ last then acc + 1 else acc) j hj
      constructor
      · exact le_trans (by split <;> omega) hlo
      · exact le_trans hhi (by split <;> omega)

/-- Each recorded timestamp in the ghost run comes from the clock
reading list. -/
theorem runAux_mem :
    ∀ (ts : List Nat) (last acc i : Nat) (h : i < (runAux last acc ts).length),
    ((runAux last acc ts).get ⟨i, h⟩).1 ∈ ts := by
  intro ts
  induction ts with
  | nil =>
    intro last acc i h
    simp [runAux] at h
  | cons t ts ih =>
    intro last acc i h
    cases i with
    | zero => exact List.mem_cons_self t ts
    | succ j =>
      have hj : j < (runAux t (if t ≤ last then acc + 1 else acc) ts).length := by
        rw [runAux_length]
        rw [runAux_length] at h
        simpa using h
      rw [show (runAux last acc (t :: ts)).get ⟨j + 1, h⟩ =
          (runAux t (if t ≤ last then acc + 1 else acc) ts).get ⟨j, hj⟩ from rfl]
      exact List.mem_cons_of_mem t (ih t _ j hj)

/-- A call whose timestamp does not exceed the run's starting `last`
has strictly more increments than the run started with (some call up
to and including it must have bumped the sequence). -/
theorem runAux_pos :
    ∀ (ts : List Nat) (last acc i : Nat) (h : i < (runAux last acc ts).length),
    ((runAux last acc ts).get ⟨i, h⟩).1 ≤ last →
    acc < ((runAux last acc ts).get ⟨i, h⟩).2 := by
  intro ts
  induction ts with
  | nil =>
    intro last acc i h
    simp [runAux] at h
  | cons t ts ih =>
    intro last acc i h
    cases i with
    | zero =>
      intro hle
      show acc < (if t ≤ last then acc + 1 else acc)
      rw [if_pos (show t ≤ last from hle)]
      omega
    | succ j =>
      have hj : j < (runAux t (if t ≤ last then acc + 1 else acc) ts).length := by
        rw [runAux_length]
        rw [runAux_length] at h
        simpa using h
      rw [show (runAux last acc (t :: ts)).get ⟨j + 1, h⟩ =
          (runAux t (if t ≤ last then acc + 1 else acc) ts).get ⟨j, hj⟩ from rfl]
      intro hle
      by_cases htl : t ≤ last
      · have hb := (runAux_bounds ts t (if t ≤ last then acc + 1 else acc) j hj).1
        have he : (if t ≤ last then acc + 1 else acc) = acc + 1 := if_pos htl
        omega
      · have hlt : ((runAux t (if t ≤ last then acc + 1 else acc) ts).get ⟨j, hj⟩).1 ≤ t := by
          omega
        have hp := ih t (if t ≤ last then acc + 1 else acc) j hj hlt
        have he : (if t ≤ last then acc + 1 else acc) = acc := if_neg htl
        omega

/-- Two calls observing the same timestamp are separated by at least
one increment: the later one has a strictly larger count. -/
theorem runAux_same_t :
    ∀ (ts : List Nat) (last acc i j : Nat) (hij : i < j)
      (hj : j < (runAux last acc ts).length),
    ((runAux last acc ts).get ⟨i, lt_trans hij hj⟩).1 =
      ((runAux last acc ts).get ⟨j, hj⟩).1 →
    ((runAux last acc ts).get ⟨i, lt_trans hij hj⟩).2 <
      ((runAux last acc ts).get ⟨j, hj⟩).2 := by
  intro ts
  induction ts with
  | nil =>
    intro last acc i j hij hj
    simp [runAux] at hj
  | cons t ts ih =>
    intro last acc i j hij hj
    cases j with
    | zero => omega
    | succ j' =>
      have hj' : j' < (runAux t (if t ≤ last then acc + 1 else acc) ts).length := by
        rw [runAux_length]
        rw [runAux_length] at hj
        simpa using hj
      rw [show (runAux last acc (t :: ts)).get ⟨j' + 1, hj⟩ =
          (runAux t (if t ≤ last then acc + 1 else acc) ts).get ⟨j', hj'⟩ from rfl]
      cases i with
      | zero =>
        intro heq
        show (if t ≤ last then acc + 1 else acc) < _
        exact runAux_pos ts t (if t ≤ last then acc + 1 else acc) j' hj' (le_of_eq heq.symm)
      | succ i' =>
        have hij' : i' < j' := by omega
        rw [show (runAux last acc (t :: ts)).get ⟨i' + 1, lt_trans hij hj⟩ =
            (runAux t (if t ≤ last then acc + 1 else acc) ts).get
              ⟨i', lt_trans hij' hj'⟩ from rfl]
        exact ih t (if t ≤ last then acc + 1 else acc) i' j' hij' hj'

/-- Between two calls the increment count grows by at most the number
of calls between them. -/
theorem runAux_incr_bound :
    ∀ (ts : List Nat) (last acc i j : Nat) (hij : i ≤ j)
      (hj : j < (runAux last acc ts).length),
    ((runAux last acc ts).get ⟨j, hj⟩).2 ≤
      ((runAux last acc ts).get ⟨i, lt_of_le_of_lt hij hj⟩).2 + (j - i) := by
  intro ts
  induction ts with
  | nil =>
    intro last acc i j hij hj
    simp [runAux] at hj
  | cons t ts ih =>
    intro last acc i j hij hj
    cases j with
    | zero =>
      have hi0 : i = 0 := by omega
      subst hi0
      omega
    | succ j' =>
      have hj' : j' < (runAux t (if t ≤ last then acc + 1 else acc) ts).length := by
        rw [runAux_length]
        rw [runAux_length] at hj
        simpa using hj
      rw [show (runAux last acc (t :: ts)).get ⟨j' + 1, hj⟩ =
          (runAux t (if t ≤ last then acc + 1 else acc) ts).get ⟨j', hj'⟩ from rfl]
      cases i with
      | zero =>
        have := (runAux_bounds ts t (if t ≤ last then acc + 1 else acc) j' hj').2
        show _ ≤ (if t ≤ last then acc + 1 else acc) + (j' + 1 - 0)
        omega
      | succ i' =>
        have hij' : i' ≤ j' := by omega
        rw [show (runAux last acc (t :: ts)).get ⟨i' + 1, lt_of_le_of_lt hij hj⟩ =
            (runAux t (if t ≤ last then acc + 1 else acc) ts).get
              ⟨i', lt_of_le_of_lt hij' hj'⟩ from rfl]
        have := ih t (if t ≤ last then acc + 1 else acc) i' j' hij' hj'
        omega

end GoUUID

namespace GoUUID

/-- The real storage run is the ghost run with the clock sequence
read back as (initial + increments) modulo 65536. -/
theorem runGetStorage_eq_aux :
    ∀ (ts : List Nat) (cs c last : Nat) (addr : List Nat),
    runGetStorage ⟨(cs + c) % 65536, last, addr⟩ ts =
      (runAux last c ts).map (fun p => (p.1, (cs + p.2) % 65536)) := by
  intro ts
  induction ts with
  | nil => intro cs c last addr; rfl
  | cons t ts ih =>
    intro cs c last addr
    by_cases hle : t ≤ last
    · have hcs : ((cs + c) % 65536 + 1) % 65536 = (cs + (c + 1)) % 65536 := by omega
      simp only [runGetStorage, getStorage, runAux, hle, if_true, List.map_cons]
      rw [hcs, ih cs (c + 1) t addr]
    · simp only [runGetStorage, getStorage, runAux, hle, if_false, List.map_cons]
      rw [ih cs c t addr]

/-- Instantiation at increment count zero. -/
theorem runGetStorage_eq (st : Storage) (ts : List Nat)
    (hcs : st.clockSequence < 65536) :
    runGetStorage st ts =
      (runAux st.lastTime 0 ts).map
        (fun p => (p.1, (st.clockSequence + p.2) % 65536)) := by
  obtain ⟨cs, last, addr⟩ := st
  dsimp only at hcs ⊢
  have h0 : cs = (cs + 0) % 65536 := by omega
  conv_lhs => rw [show (⟨cs, last, addr⟩ : Storage) = ⟨(cs + 0) % 65536, last, addr⟩ by
    rw [← h0]]
  exact runGetStorage_eq_aux ts cs 0 last addr

/-- The UUID run is the storage run pushed through the encoder with
the fixed node id. -/
theorem runNewV1_eq_map :
    ∀ (ts : List Nat) (st : Storage),
    runNewV1 st ts =
      (runGetStorage st ts).map (fun p => encodeV1 p.1 p.2 st.hardwareAddr) := by
  intro ts
  induction ts with
  | nil => intro st; rfl
  | cons t ts ih =>
    intro st
    obtain ⟨cs, last, addr⟩ := st
    by_cases hle : t ≤ last <;>
      simp [runNewV1, runGetStorage, NewV1, getStorage, hle, ih]

set_option maxHeartbeats 800000 in
/-- C9 (amended): serialized through the mutex, K calls against the
package-level generator with clock readings below 2^60 and K at most
2^14 return pairwise-distinct UUIDs, and no two calls observe the same
(timestamp, clockSequence) pair.  Beyond those bounds the 60-bit
timestamp field and 14-bit clock-sequence field can collide
byte-for-byte. -/
theorem c9_mutex_distinct_amended (st : Storage) (ts : List Nat)
    (hcs : st.clockSequence < 65536) (hlen : ts.length ≤ 16384)
    (hts : ∀ t ∈ ts, t < 2 ^ 60) :
    (runNewV1 st ts).Pairwise (fun u v => u ≠ v) ∧
    (runGetStorage st ts).Pairwise (fun p q => p ≠ q) := by
  have key : (runNewV1 st ts).Pairwise (fun u v => u ≠ v) := by
    rw [runNewV1_eq_map, runGetStorage_eq st ts hcs, List.map_map]
    rw [List.pairwise_map, List.pairwise_iff_get]
    intro i j hij
    intro heq
    dsimp only [Function.comp] at heq
    have hij' : (i : Nat) < (j : Nat) := hij
    have hti : ((runAux st.lastTime 0 ts).get i).1 < 2 ^ 60 :=
      hts _ (runAux_mem ts st.lastTime 0 i i.isLt)
    have htj : ((runAux st.lastTime 0 ts).get j).1 < 2 ^ 60 :=
      hts _ (runAux_mem ts st.lastTime 0 j j.isLt)
    obtain ⟨ht, hs⟩ := encodeV1_inj _ _ _ _ _ hti htj heq
    have hmono : ((runAux st.lastTime 0 ts).get i).2 <
        ((runAux st.lastTime 0 ts).get j).2 :=
      runAux_same_t ts st.lastTime 0 i j hij' j.isLt ht
    have hbound : ((runAux st.lastTime 0 ts).get j).2 ≤
        ((runAux st.lastTime 0 ts).get i).2 + ((j : Nat) - (i : Nat)) :=
      runAux_incr_bound ts st.lastTime 0 i j (le_of_lt hij') j.isLt
    have hjlen : (j : Nat) < ts.length :=
      lt_of_lt_of_le j.isLt (runAux_length ts st.lastTime 0).le
    omega
  refine ⟨key, ?_⟩
  have key2 := key
  rw [runNewV1_eq_map, List.pairwise_map] at key2
  exact key2.imp (fun h hpq => h (by rw [hpq]))

/-- Witness for the amended C9: two serialized calls at readings 1
then 2. -/
theorem c9_mutex_distinct_amended_witness :
    (runNewV1 ⟨0, 0, [1, 2, 3, 4, 5, 6]⟩ [1, 2]).Pairwise (fun u v => u ≠ v) ∧
    (runGetStorage ⟨0, 0, [1, 2, 3, 4, 5, 6]⟩ [1, 2]).Pairwise (fun p q => p ≠ q) :=
  c9_mutex_distinct_amended ⟨0, 0, [1, 2, 3, 4, 5, 6]⟩ [1, 2]
    (by decide) (by decide) (by decide)

/-- Counterexample to C9 as stated: two serialized calls whose clock
readings are 0 and 2^60 (both representable 64-bit timestamps) return
byte-identical UUIDs — the version nibble overwrites bits 60-63, so
the two distinct (timestamp, clockSequence) pairs encode identically. -/
theorem c9_mutex_distinct_counterexample :
    ¬(runNewV1 ⟨5, 0, [1, 2, 3, 4, 5, 6]⟩ [0, 2 ^ 60]).Pairwise
      (fun u v => u ≠ v) := by
  intro h
  have h2 : runNewV1 ⟨5, 0, [1, 2, 3, 4, 5, 6]⟩ [0, 2 ^ 60] =
      [encodeV1 0 6 [1, 2, 3, 4, 5, 6], encodeV1 (2 ^ 60) 6 [1, 2, 3, 4, 5, 6]] := by
    decide
  rw [h2] at h
  have h3 := List.rel_of_pairwise_cons h (List.mem_singleton.mpr rfl)
  exact h3 (by decide)

end GoUUID
